import Mathlib

/-!
Shallow embedding of the fastocloud control-plane worker sources:
`src/server/child_stream.cpp`, `src/server/daemon/commands_factory.h`,
`src/base/rsvg_logo.cpp` and `src/base/utils.cpp`, with theorems settling
the specification claims about them.
-/

namespace Fastocloud

/-! ## Stream lifecycle data model (`child_stream.cpp`) -/

/-- The `fastotv::StreamType` enumeration, as used by `ChildStream::CleanUp`.
The six types tested in the skip check appear by name; the remaining members
of the (external) enumeration are the other worker kinds. -/
inductive StreamType
  | PROXY
  | VOD_PROXY
  | RELAY
  | ENCODE
  | TIMESHIFT_PLAYER
  | TIMESHIFT_RECORDER
  | CATCHUP
  | TEST_LIFE
  | VOD_RELAY
  | VOD_ENCODE
  | COD_RELAY
  | COD_ENCODE
  | SCREEN
  deriving DecidableEq, Repr

/-- URL schemes distinguished by `common::uri::Url::GetScheme`; the cleanup
loop only tests for `http`. -/
inductive Scheme
  | http
  | https
  | file
  | rtmp
  | udp
  | tcp
  | unknown
  deriving DecidableEq, Repr

/-- One output sink of a stream (`OutputUri` in the configuration): the
output URL (its scheme is what `CleanUp` inspects) and, for http sinks, the
local http-root directory backing the served tree (`GetHttpRoot`). -/
structure OutputUri where
  scheme : Scheme
  output : String
  httpRoot : String
  deriving DecidableEq, Repr

/-- Embedding of `StreamInfo`: the configuration snapshot a `ChildStream` owns
(`conf_` in `child_stream.cpp`). -/
structure StreamInfo where
  id : String
  type : StreamType
  output : List OutputUri
  deriving DecidableEq, Repr

/-- A filesystem call issued by the cleanup code: `remove_directory(path,
recursive)` is the only call `CleanUp` can make. -/
inductive FsAction
  | removeDirectory (path : String) (recursive : Bool)
  deriving DecidableEq, Repr

/-- The skip set named by the spec: stream types whose termination performs
no filesystem action. -/
def skipSet : List StreamType :=
  [.VOD_ENCODE, .VOD_RELAY, .CATCHUP, .TIMESHIFT_RECORDER, .TEST_LIFE, .SCREEN]

/-- The sink loop of `ChildStream::CleanUp` (lines 34-40): for each output
whose URL scheme is http, call `remove_directory(http_root, true)`. -/
def cleanUpLoop : List OutputUri → List FsAction
  | [] => []
  | out :: rest =>
    if out.scheme = Scheme.http then
      FsAction.removeDirectory out.httpRoot true :: cleanUpLoop rest
    else
      cleanUpLoop rest

/-- Embedding of `ChildStream::CleanUp` (lines 28-41) as the list of filesystem calls it
issues: the chain of equality tests on `conf_.type` returns early with no
call, otherwise the sink loop runs. -/
def cleanUpActions (conf : StreamInfo) : List FsAction :=
  if conf.type = StreamType.VOD_ENCODE ∨ conf.type = StreamType.VOD_RELAY ∨
      conf.type = StreamType.CATCHUP ∨ conf.type = StreamType.TIMESHIFT_RECORDER ∨
      conf.type = StreamType.TEST_LIFE ∨ conf.type = StreamType.SCREEN then
    []
  else
    cleanUpLoop conf.output

/-- A directory tree existing on disk, named by its root path; applying one
`remove_directory(path, true)` deletes the tree rooted at `path`. -/
def applyAction (fs : List String) : FsAction → List String
  | FsAction.removeDirectory path _ => fs.filter (fun q => q ≠ path)

/-- Run a sequence of filesystem actions against a set of directory trees. -/
def applyActions (fs : List String) (acts : List FsAction) : List String :=
  acts.foldl applyAction fs

/-- ChildStream supervisor: it exclusively owns one `StreamInfo` (`conf_`). -/
structure ChildStream where
  conf : StreamInfo
  deriving DecidableEq, Repr

/-- Embedding of `ChildStream::GetStreamID` returns `conf_.id`. -/
def ChildStream.GetStreamID (cs : ChildStream) : String :=
  cs.conf.id

/-- Embedding of `ChildStream::CleanUp` as a method: it reads `conf_`, never writes it,
so the post-state is the same object; the second component is the list of
filesystem calls issued. -/
def ChildStream.CleanUp (cs : ChildStream) : ChildStream × List FsAction :=
  (cs, cleanUpActions cs.conf)

theorem cleanUpLoop_eq_filterMap (outs : List OutputUri) :
    cleanUpLoop outs =
      (outs.filter (fun o => o.scheme = Scheme.http)).map
        (fun o => FsAction.removeDirectory o.httpRoot true) := by
  induction outs with
  | nil => rfl
  | cons out rest ih =>
    by_cases h : out.scheme = Scheme.http
    · simp [cleanUpLoop, h, ih]
    · simp [cleanUpLoop, h, ih]

theorem cleanUpActions_skip (conf : StreamInfo) (h : conf.type ∈ skipSet) :
    cleanUpActions conf = [] := by
  have h6 : conf.type = StreamType.VOD_ENCODE ∨ conf.type = StreamType.VOD_RELAY ∨
      conf.type = StreamType.CATCHUP ∨ conf.type = StreamType.TIMESHIFT_RECORDER ∨
      conf.type = StreamType.TEST_LIFE ∨ conf.type = StreamType.SCREEN := by
    simpa [skipSet] using h
  simp [cleanUpActions, h6]

theorem cleanUpActions_nonskip (conf : StreamInfo) (h : conf.type ∉ skipSet) :
    cleanUpActions conf = cleanUpLoop conf.output := by
  have h6 : ¬(conf.type = StreamType.VOD_ENCODE ∨ conf.type = StreamType.VOD_RELAY ∨
      conf.type = StreamType.CATCHUP ∨ conf.type = StreamType.TIMESHIFT_RECORDER ∨
      conf.type = StreamType.TEST_LIFE ∨ conf.type = StreamType.SCREEN) := by
    intro hc
    exact h (by simpa [skipSet] using hc)
  simp [cleanUpActions, h6]

theorem mem_applyAction (fs : List String) (p q : String) (r : Bool) :
    p ∈ applyAction fs (FsAction.removeDirectory q r) ↔ p ∈ fs ∧ p ≠ q := by
  simp [applyAction]

theorem mem_applyActions_of_path_ne (fs : List String) (acts : List FsAction) (p : String)
    (h : ∀ q r, FsAction.removeDirectory q r ∈ acts → q ≠ p) :
    p ∈ applyActions fs acts ↔ p ∈ fs := by
  induction acts generalizing fs with
  | nil => simp [applyActions]
  | cons a rest ih =>
    cases a with
    | removeDirectory q r =>
      have hq : q ≠ p := h q r (List.mem_cons_self _ _)
      have hrest : ∀ q' r', FsAction.removeDirectory q' r' ∈ rest → q' ≠ p := by
        intro q' r' hm
        exact h q' r' (List.mem_cons_of_mem _ hm)
      have step : applyActions fs (FsAction.removeDirectory q r :: rest) =
          applyActions (applyAction fs (FsAction.removeDirectory q r)) rest := rfl
      rw [step, ih _ hrest, mem_applyAction]
      constructor
      · exact fun hx => hx.1
      · exact fun hx => ⟨hx, fun hpq => hq hpq.symm⟩

/-- Claim C1: For every `StreamInfo` whose type is in the skip set
{VOD_ENCODE, VOD_RELAY, CATCHUP, TIMESHIFT_RECORDER, TEST_LIFE, SCREEN},
`ChildStream::CleanUp` issues zero filesystem calls, regardless of the
stream's output sinks, so any filesystem state is left unchanged. -/
theorem claim_C1_skip_types_no_fs_action (conf : StreamInfo) (h : conf.type ∈ skipSet) :
    (ChildStream.CleanUp ⟨conf⟩).2 = [] ∧
    ∀ fs : List String, applyActions fs (ChildStream.CleanUp ⟨conf⟩).2 = fs := by
  have hempty : (ChildStream.CleanUp ⟨conf⟩).2 = [] := cleanUpActions_skip conf h
  exact ⟨hempty, fun fs => by rw [hempty]; rfl⟩

/-- Witness for claim C1 (Scenario A): for `StreamInfo{id=42, type=CATCHUP,
outputs=[{http, "/var/data/42/http"}]}` cleanup is a no-op and the http root
still exists afterward. -/
theorem claim_C1_skip_types_no_fs_action_witness :
    (ChildStream.CleanUp ⟨⟨"42", StreamType.CATCHUP,
        [⟨Scheme.http, "http://s/42", "/var/data/42/http"⟩]⟩⟩).2 = [] ∧
    "/var/data/42/http" ∈ applyActions ["/var/data/42/http"]
      (ChildStream.CleanUp ⟨⟨"42", StreamType.CATCHUP,
        [⟨Scheme.http, "http://s/42", "/var/data/42/http"⟩]⟩⟩).2 := by
  have h := claim_C1_skip_types_no_fs_action
    ⟨"42", StreamType.CATCHUP, [⟨Scheme.http, "http://s/42", "/var/data/42/http"⟩]⟩
    (by decide)
  refine ⟨h.1, ?_⟩
  rw [h.2 ["/var/data/42/http"]]
  simp

/-- Claim C2: For every `StreamInfo` whose type is outside the skip set,
`ChildStream::CleanUp` issues, in sink order, exactly one recursive
`remove_directory` call per sink whose URL scheme is http, on that sink's
http root; any path that is not the http root of an http sink is left
untouched in the filesystem. -/
theorem claim_C2_nonskip_removes_exactly_http_roots (conf : StreamInfo)
    (h : conf.type ∉ skipSet) :
    (ChildStream.CleanUp ⟨conf⟩).2 =
      (conf.output.filter (fun o => o.scheme = Scheme.http)).map
        (fun o => FsAction.removeDirectory o.httpRoot true) ∧
    ∀ (fs : List String) (p : String),
      (∀ o ∈ conf.output, o.scheme = Scheme.http → o.httpRoot ≠ p) →
      (p ∈ applyActions fs (ChildStream.CleanUp ⟨conf⟩).2 ↔ p ∈ fs) := by
  have hacts : (ChildStream.CleanUp ⟨conf⟩).2 =
      (conf.output.filter (fun o => o.scheme = Scheme.http)).map
        (fun o => FsAction.removeDirectory o.httpRoot true) := by
    show cleanUpActions conf = _
    rw [cleanUpActions_nonskip conf h, cleanUpLoop_eq_filterMap]
  refine ⟨hacts, fun fs p hp => ?_⟩
  rw [hacts]
  apply mem_applyActions_of_path_ne
  intro q r hm
  rcases List.mem_map.mp hm with ⟨o, ho, heq⟩
  rcases List.mem_filter.mp ho with ⟨hoout, hosch⟩
  cases heq
  exact hp o hoout (by simpa using hosch)

/-- Witness for claim C2 (Scenario B): a non-skip stream with one http sink and
one rtmp sink issues exactly the removal of the http root, and the rtmp
target is untouched. -/
theorem claim_C2_nonskip_removes_exactly_http_roots_witness :
    (ChildStream.CleanUp ⟨⟨"7", StreamType.RELAY,
        [⟨Scheme.http, "http://s/7", "/var/data/7/http"⟩,
         ⟨Scheme.rtmp, "rtmp://x", "rtmp://x"⟩]⟩⟩).2 =
      [FsAction.removeDirectory "/var/data/7/http" true] ∧
    ("rtmp://x" ∈ applyActions ["/var/data/7/http", "rtmp://x"]
        (ChildStream.CleanUp ⟨⟨"7", StreamType.RELAY,
          [⟨Scheme.http, "http://s/7", "/var/data/7/http"⟩,
           ⟨Scheme.rtmp, "rtmp://x", "rtmp://x"⟩]⟩⟩).2 ↔
      "rtmp://x" ∈ ["/var/data/7/http", "rtmp://x"]) := by
  have h := claim_C2_nonskip_removes_exactly_http_roots
    ⟨"7", StreamType.RELAY,
      [⟨Scheme.http, "http://s/7", "/var/data/7/http"⟩,
       ⟨Scheme.rtmp, "rtmp://x", "rtmp://x"⟩]⟩
    (by decide)
  refine ⟨h.1.trans (by decide), ?_⟩
  exact h.2 ["/var/data/7/http", "rtmp://x"] "rtmp://x" (by decide)

/-! ## Cleanup error handling (`ChildStream::CleanUp`, lines 34-40)

The body of the sink loop is exactly
`common::file_system::remove_directory(http_root.GetPath(), true);` —
the returned `ErrnoError` is discarded: the method contains no logging
statement, no early return on failure, and a `void` return type. To state
claims about its behaviour under filesystem faults we record the full
effect trace of the body, with the outcome of each `remove_directory` call
supplied by an oracle modelling the filesystem. -/

/-- An observable effect of the cleanup body: a filesystem call or an
emitted log record. -/
inductive Effect
  | fsRemoveDirectory (path : String) (recursive : Bool)
  | log (message : String)
  deriving DecidableEq, Repr

/-- The sink loop of `CleanUp` as an effect trace. `oracle path` is the
success/failure the filesystem would report for `remove_directory(path,
true)`; the code discards that result, so the rest of the trace never
depends on it and no `log` effect is ever emitted. -/
def cleanUpEffectsLoop (oracle : String → Bool) : List OutputUri → List Effect
  | [] => []
  | out :: rest =>
    if out.scheme = Scheme.http then
      Effect.fsRemoveDirectory out.httpRoot true :: cleanUpEffectsLoop oracle rest
    else
      cleanUpEffectsLoop oracle rest

/-- Embedding of `ChildStream::CleanUp` as an effect trace: the skip check, then the
sink loop. -/
def cleanUpEffects (conf : StreamInfo) (oracle : String → Bool) : List Effect :=
  if conf.type = StreamType.VOD_ENCODE ∨ conf.type = StreamType.VOD_RELAY ∨
      conf.type = StreamType.CATCHUP ∨ conf.type = StreamType.TIMESHIFT_RECORDER ∨
      conf.type = StreamType.TEST_LIFE ∨ conf.type = StreamType.SCREEN then
    []
  else
    cleanUpEffectsLoop oracle conf.output

theorem cleanUpEffectsLoop_no_log (oracle : String → Bool) (outs : List OutputUri)
    (m : String) : Effect.log m ∉ cleanUpEffectsLoop oracle outs := by
  induction outs with
  | nil => simp [cleanUpEffectsLoop]
  | cons out rest ih =>
    by_cases h : out.scheme = Scheme.http
    · simp [cleanUpEffectsLoop, h]
      exact ih
    · simpa [cleanUpEffectsLoop, h] using ih

theorem cleanUpEffectsLoop_oracle_independent (o₁ o₂ : String → Bool)
    (outs : List OutputUri) :
    cleanUpEffectsLoop o₁ outs = cleanUpEffectsLoop o₂ outs := by
  induction outs with
  | nil => rfl
  | cons out rest ih => simp [cleanUpEffectsLoop, ih]

/-- Counterexample for claim C5 as stated. The claim says a failed removal is "recorded
(logged)". For the concrete stream below, with a filesystem on which every
`remove_directory` call fails, the complete effect trace of `CleanUp` is
just the removal attempt itself: no log record of the failure is emitted
(the code at `child_stream.cpp:38` discards the returned error). -/
theorem claim_C5_counterexample :
    cleanUpEffects ⟨"9", StreamType.RELAY, [⟨Scheme.http, "http://s/9", "/var/data/9/http"⟩]⟩
        (fun _ => false) =
      [Effect.fsRemoveDirectory "/var/data/9/http" true] := by
  rfl

/-- Claim C5, amended: For every stream and any filesystem behaviour,
`ChildStream::CleanUp` runs to completion and returns normally: a failure
to remove one http sink's root is silently discarded (no log record is
emitted), does not abort the cleanup of the remaining sinks (the effect
trace is independent of the filesystem's answers), and is never surfaced
to the caller (the post-state equals the pre-state and the method yields
no error value); removing an already-absent directory leaves the
filesystem unchanged. -/
theorem claim_C5_cleanup_never_fails (conf : StreamInfo) (oracle : String → Bool)
    (m : String) (fs : List String) (p : String) (r : Bool) (habs : p ∉ fs) :
    Effect.log m ∉ cleanUpEffects conf oracle ∧
    cleanUpEffects conf oracle = cleanUpEffects conf (fun _ => true) ∧
    (ChildStream.CleanUp ⟨conf⟩).1 = ⟨conf⟩ ∧
    applyAction fs (FsAction.removeDirectory p r) = fs := by
  refine ⟨?_, ?_, rfl, ?_⟩
  · unfold cleanUpEffects
    split
    · simp
    · exact cleanUpEffectsLoop_no_log oracle conf.output m
  · unfold cleanUpEffects
    split
    · rfl
    · exact cleanUpEffectsLoop_oracle_independent oracle (fun _ => true) conf.output
  · unfold applyAction
    apply List.filter_eq_self.mpr
    intro q hq
    simp only [ne_eq, decide_eq_true_eq]
    intro hqp
    exact habs (hqp ▸ hq)

/-- Witness for the amended claim C5: the amended claim at the concrete stream of the
counterexample, an all-failing filesystem, and a filesystem state missing
the removed path. -/
theorem claim_C5_cleanup_never_fails_witness :
    Effect.log "err" ∉ cleanUpEffects
        ⟨"9", StreamType.RELAY, [⟨Scheme.http, "http://s/9", "/var/data/9/http"⟩]⟩
        (fun _ => false) ∧
    cleanUpEffects ⟨"9", StreamType.RELAY, [⟨Scheme.http, "http://s/9", "/var/data/9/http"⟩]⟩
        (fun _ => false) =
      cleanUpEffects ⟨"9", StreamType.RELAY, [⟨Scheme.http, "http://s/9", "/var/data/9/http"⟩]⟩
        (fun _ => true) ∧
    (ChildStream.CleanUp ⟨⟨"9", StreamType.RELAY,
        [⟨Scheme.http, "http://s/9", "/var/data/9/http"⟩]⟩⟩).1 =
      ⟨⟨"9", StreamType.RELAY, [⟨Scheme.http, "http://s/9", "/var/data/9/http"⟩]⟩⟩ ∧
    applyAction ["/other"] (FsAction.removeDirectory "/var/data/9/http" true) = ["/other"] :=
  claim_C5_cleanup_never_fails
    ⟨"9", StreamType.RELAY, [⟨Scheme.http, "http://s/9", "/var/data/9/http"⟩]⟩
    (fun _ => false) "err" ["/other"] "/var/data/9/http" true (by decide)

/-- Claim C7: The `StreamInfo` owned by a `ChildStream` is an immutable
snapshot: `CleanUp` leaves the object unchanged, and `GetStreamID` returns
the id of the `StreamInfo` supplied at construction, before and after
`CleanUp`. -/
theorem claim_C7_stream_info_immutable (conf : StreamInfo) :
    (ChildStream.CleanUp ⟨conf⟩).1 = ⟨conf⟩ ∧
    ChildStream.GetStreamID ⟨conf⟩ = conf.id ∧
    (ChildStream.CleanUp ⟨conf⟩).1.GetStreamID = conf.id :=
  ⟨rfl, rfl, rfl⟩

/-! ## Message model and command factory (`commands_factory.h`)

The header declares the constructor surface; the implementation file is not
part of the sources at hand, so the constructors' behaviour is modelled
from the spec (§4.1) while the declared surface itself (which operations
offer which variants) is taken from the header. -/

/-- Sequence identifier carried unchanged from a Request to its Response. -/
abbrev SeqId := Nat

/-- A message payload already encoded in the transport's structured-value
format (treated as opaque by the factory). -/
abbrev Payload := String

/-- Embedding of `Request = {sequence_id, method name, params}`. -/
structure Request where
  id : SeqId
  method : String
  params : Payload
  deriving DecidableEq, Repr

/-- Embedding of `Response = {sequence_id, result (absent on failure), error (absent on
success)}`. -/
structure Response where
  id : SeqId
  result : Option Payload
  error : Option String
  deriving DecidableEq, Repr

/-- The only error a factory constructor can raise. -/
inductive FactoryError
  | encodingError
  deriving DecidableEq, Repr

/-- Modelled from the spec: the shared Success constructor contract of
`commands_factory.h` (the implementation file is not among the sources):
`Success(id, result) -> Response{id, result, error=absent}`. -/
def buildSuccessResponse (id : SeqId) (r : Payload) : Response :=
  ⟨id, some r, none⟩

/-- Modelled from the spec: the shared Fail constructor contract of
`commands_factory.h` (the implementation file is not among the sources):
`Fail(id, error_text) -> Response{id, result=absent, error=error_text}`. -/
def buildFailResponse (id : SeqId) (errorText : String) : Response :=
  ⟨id, none, some errorText⟩

/-- Modelled from the spec: `StopServiceResponseFail` as an instance of
the shared Fail contract (Scenario C names this constructor). -/
def StopServiceResponseFail (id : SeqId) (errorText : String) : Response :=
  buildFailResponse id errorText

/-- Modelled from the spec: `StopServiceResponseSuccess` as an instance of
the shared Success contract. -/
def StopServiceResponseSuccess (id : SeqId) (r : Payload) : Response :=
  buildSuccessResponse id r

/-- Modelled from the spec: a request constructor (`ActivateServiceRequest`,
`StopServiceRequest`, `PingRequest`; the implementation file is not among
the sources). It encodes the typed parameter value into the transport's
structured-value format; if the payload cannot be represented, it fails
with an EncodingError and no message is produced, otherwise it yields the
complete Request carrying the id, the method name and the encoded payload. -/
def makeRequest {P : Type} (encode : P → Option Payload) (method : String)
    (id : SeqId) (params : P) : Except FactoryError Request :=
  match encode params with
  | some v => Except.ok ⟨id, method, v⟩
  | none => Except.error FactoryError.encodingError

/-- Modelled from the spec: `ActivateServiceRequest(id, params)`. -/
def ActivateServiceRequest {P : Type} (encode : P → Option Payload)
    (id : SeqId) (params : P) : Except FactoryError Request :=
  makeRequest encode "ActivateService" id params

/-- Modelled from the spec: `StopServiceRequest(id, params)`. -/
def StopServiceRequest {P : Type} (encode : P → Option Payload)
    (id : SeqId) (params : P) : Except FactoryError Request :=
  makeRequest encode "StopService" id params

/-- Modelled from the spec: `PingRequest(id, params)`. -/
def PingRequest {P : Type} (encode : P → Option Payload)
    (id : SeqId) (params : P) : Except FactoryError Request :=
  makeRequest encode "Ping" id params

/-- Claim C3: Every Success constructor yields `Response{id, result=r,
error=absent}` and every Fail constructor yields `Response{id,
result=absent, error=text}`; in particular
`StopServiceResponseFail(5, "disk full")` yields
`Response{id=5, error="disk full", result=absent}`. -/
theorem claim_C3_success_fail_response_shape (id : SeqId) (r : Payload) (text : String) :
    (buildSuccessResponse id r).id = id ∧
    (buildSuccessResponse id r).result = some r ∧
    (buildSuccessResponse id r).error = none ∧
    (buildFailResponse id text).id = id ∧
    (buildFailResponse id text).result = none ∧
    (buildFailResponse id text).error = some text ∧
    StopServiceResponseFail 5 "disk full" = ⟨5, none, some "disk full"⟩ :=
  ⟨rfl, rfl, rfl, rfl, rfl, rfl, rfl⟩

/-- Operations the header offers response constructors for. -/
inductive RespOp
  | StopService
  | GetLogService
  | Activate
  | StateService
  | SyncService
  | PingService
  | StartStream
  | StopStream
  | RestartStream
  | GetLogStream
  deriving DecidableEq, Repr

/-- Whether a declared constructor builds the success or the fail shape. -/
inductive RespVariant
  | success
  | fail
  deriving DecidableEq, Repr

/-- The response-constructor surface declared in `commands_factory.h`
lines 42-91, one entry per declared function: ten operations, eight offered
as Success/Fail pairs, `StateServiceResponse` and
`SyncServiceResponceSuccess` offered success-only. -/
def offeredResponseConstructors : List (RespOp × RespVariant) :=
  [(RespOp.StopService, RespVariant.success), (RespOp.StopService, RespVariant.fail),
   (RespOp.GetLogService, RespVariant.success), (RespOp.GetLogService, RespVariant.fail),
   (RespOp.Activate, RespVariant.success), (RespOp.Activate, RespVariant.fail),
   (RespOp.StateService, RespVariant.success),
   (RespOp.SyncService, RespVariant.success),
   (RespOp.PingService, RespVariant.success), (RespOp.PingService, RespVariant.fail),
   (RespOp.StartStream, RespVariant.success), (RespOp.StartStream, RespVariant.fail),
   (RespOp.StopStream, RespVariant.success), (RespOp.StopStream, RespVariant.fail),
   (RespOp.RestartStream, RespVariant.success), (RespOp.RestartStream, RespVariant.fail),
   (RespOp.GetLogStream, RespVariant.success), (RespOp.GetLogStream, RespVariant.fail)]

/-- Claim C4: `StateService` and `SyncService` are success-only: the header
offers a success constructor for each but no Fail-variant constructor for
either, while it does offer Fail variants for the other eight operations. -/
theorem claim_C4_state_sync_success_only :
    (RespOp.StateService, RespVariant.success) ∈ offeredResponseConstructors ∧
    (RespOp.SyncService, RespVariant.success) ∈ offeredResponseConstructors ∧
    (RespOp.StateService, RespVariant.fail) ∉ offeredResponseConstructors ∧
    (RespOp.SyncService, RespVariant.fail) ∉ offeredResponseConstructors := by
  decide

/-- Claim C6: Each request constructor, given a sequence id and a typed
parameter value, either yields the complete Request carrying that id and
the encoded payload, or fails with an EncodingError exactly when the
payload cannot be represented in the transport's structured-value format;
no other error kind and no partial message is possible. -/
theorem claim_C6_request_constructors_total {P : Type} (encode : P → Option Payload)
    (id : SeqId) (params : P) :
    ((∃ v, encode params = some v ∧
        ActivateServiceRequest encode id params = Except.ok ⟨id, "ActivateService", v⟩ ∧
        StopServiceRequest encode id params = Except.ok ⟨id, "StopService", v⟩ ∧
        PingRequest encode id params = Except.ok ⟨id, "Ping", v⟩) ∨
      (encode params = none ∧
        ActivateServiceRequest encode id params = Except.error FactoryError.encodingError ∧
        StopServiceRequest encode id params = Except.error FactoryError.encodingError ∧
        PingRequest encode id params = Except.error FactoryError.encodingError)) := by
  cases hv : encode params with
  | none =>
    right
    refine ⟨rfl, ?_, ?_, ?_⟩ <;>
      simp [ActivateServiceRequest, StopServiceRequest, PingRequest, makeRequest, hv]
  | some v =>
    left
    refine ⟨v, rfl, ?_, ?_, ?_⟩ <;>
      simp [ActivateServiceRequest, StopServiceRequest, PingRequest, makeRequest, hv]

/-! ## Decimal codec for points and sizes

`rsvg_logo.cpp` stores positions and sizes as strings via the external
`common::ConvertToString` / `common::ConvertFromString` pair, whose wire
formats are `"x,y"` for a point and `"WxH"` for a size with `%d`-style
decimal integers; this section embeds those codecs. -/

/-- The numeric value of a decimal digit character (code points 48-57),
`none` for every other character. -/
def digitVal (c : Char) : Option Nat :=
  if 48 ≤ c.toNat ∧ c.toNat ≤ 57 then some (c.toNat - 48) else none

/-- The decimal digits of a natural number, most significant first, as
`%d` prints them. -/
def natDigits (n : Nat) : List Char :=
  if _h : n < 10 then [Nat.digitChar n]
  else natDigits (n / 10) ++ [Nat.digitChar (n % 10)]
termination_by n
decreasing_by
  exact Nat.div_lt_self (by omega) (by omega)

/-- Digit-stream accumulator of a decimal parser: consumes the whole list,
failing on the first non-digit. -/
def parseNatAux : Nat → List Char → Option Nat
  | acc, [] => some acc
  | acc, c :: cs =>
    match digitVal c with
    | some d => parseNatAux (acc * 10 + d) cs
    | none => none

/-- Parse a non-empty all-digit list as a natural number. -/
def parseNatList : List Char → Option Nat
  | [] => none
  | cs => parseNatAux 0 cs

/-- Embedding of `%d` rendering of an integer: an optional leading minus sign, then the
decimal digits of the absolute value. -/
def intToChars (i : Int) : List Char :=
  if i < 0 then '-' :: natDigits i.natAbs else natDigits i.natAbs

/-- Parse an optionally `-`-signed decimal integer. -/
def parseIntList (cs : List Char) : Option Int :=
  match cs with
  | [] => none
  | c :: rest =>
    if c = '-' then (parseNatList rest).map (fun n => -(Int.ofNat n))
    else (parseNatList (c :: rest)).map Int.ofNat

theorem digitVal_digitChar (n : Nat) (h : n < 10) : digitVal (Nat.digitChar n) = some n := by
  interval_cases n <;> rfl

theorem parseNatAux_append (l₁ l₂ : List Char) (acc : Nat) :
    parseNatAux acc (l₁ ++ l₂) = (parseNatAux acc l₁).bind (fun m => parseNatAux m l₂) := by
  induction l₁ generalizing acc with
  | nil => rfl
  | cons c cs ih =>
    simp only [List.cons_append, parseNatAux]
    cases digitVal c with
    | none => rfl
    | some d => exact ih (acc * 10 + d)

theorem parseNatAux_natDigits (n : Nat) :
    ∀ acc, parseNatAux acc (natDigits n) = some (acc * 10 ^ (natDigits n).length + n) := by
  induction n using Nat.strong_induction_on with
  | _ n ih =>
    intro acc
    rw [natDigits]
    split
    · next h =>
      simp [parseNatAux, digitVal_digitChar n h]
    · next h =>
      have hlt : n / 10 < n := Nat.div_lt_self (by omega) (by omega)
      rw [parseNatAux_append, ih (n / 10) hlt acc, Option.some_bind]
      have hd : digitVal (Nat.digitChar (n % 10)) = some (n % 10) :=
        digitVal_digitChar (n % 10) (Nat.mod_lt n (by omega))
      simp only [parseNatAux, hd]
      have hlen : (natDigits (n / 10) ++ [Nat.digitChar (n % 10)]).length =
          (natDigits (n / 10)).length + 1 := by simp
      rw [hlen]
      have hmod : n / 10 * 10 + n % 10 = n := by omega
      congr 1
      calc (acc * 10 ^ (natDigits (n / 10)).length + n / 10) * 10 + n % 10
          = acc * (10 ^ (natDigits (n / 10)).length * 10) + (n / 10 * 10 + n % 10) := by ring
        _ = acc * 10 ^ ((natDigits (n / 10)).length + 1) + n := by rw [hmod, pow_succ]

theorem natDigits_ne_nil (n : Nat) : natDigits n ≠ [] := by
  rw [natDigits]
  split
  · simp
  · simp

theorem mem_natDigits_isDigit (n : Nat) (c : Char) (hc : c ∈ natDigits n) :
    ∃ d, d < 10 ∧ c = Nat.digitChar d := by
  induction n using Nat.strong_induction_on with
  | _ n ih =>
    rw [natDigits] at hc
    split at hc
    · next h =>
      simp at hc
      exact ⟨n, h, hc⟩
    · next h =>
      rcases List.mem_append.mp hc with h1 | h2
      · exact ih (n / 10) (Nat.div_lt_self (by omega) (by omega)) h1
      · simp at h2
        exact ⟨n % 10, Nat.mod_lt n (by omega), h2⟩

theorem digitVal_ne_none_of_mem_natDigits (n : Nat) (c : Char) (hc : c ∈ natDigits n) :
    digitVal c ≠ none := by
  rcases mem_natDigits_isDigit n c hc with ⟨d, hd, rfl⟩
  rw [digitVal_digitChar d hd]
  simp

theorem parseNatList_natDigits (n : Nat) : parseNatList (natDigits n) = some n := by
  cases hl : natDigits n with
  | nil => exact absurd hl (natDigits_ne_nil n)
  | cons c rest =>
    have : parseNatList (c :: rest) = parseNatAux 0 (c :: rest) := rfl
    rw [this, ← hl, parseNatAux_natDigits n 0]
    simp

theorem parseIntList_cons (c : Char) (rest : List Char) :
    parseIntList (c :: rest) =
      if c = '-' then (parseNatList rest).map (fun n => -(Int.ofNat n))
      else (parseNatList (c :: rest)).map Int.ofNat := rfl

theorem parseIntList_intToChars (i : Int) : parseIntList (intToChars i) = some i := by
  by_cases hneg : i < 0
  · have : intToChars i = '-' :: natDigits i.natAbs := by
      unfold intToChars
      rw [if_pos hneg]
    rw [this, parseIntList_cons, if_pos rfl, parseNatList_natDigits, Option.map_some']
    congr 1
    have h0 : Int.ofNat i.natAbs = -i := Int.ofNat_natAbs_of_nonpos (le_of_lt hneg)
    rw [h0, neg_neg]
  · have : intToChars i = natDigits i.natAbs := by
      unfold intToChars
      rw [if_neg hneg]
    rw [this]
    cases hl : natDigits i.natAbs with
    | nil => exact absurd hl (natDigits_ne_nil i.natAbs)
    | cons c rest =>
      have hcmem : c ∈ natDigits i.natAbs := by rw [hl]; exact List.mem_cons_self _ _
      have hcne : c ≠ '-' := by
        intro hceq
        exact digitVal_ne_none_of_mem_natDigits i.natAbs c hcmem (by rw [hceq]; rfl)
      rw [parseIntList_cons, if_neg hcne, ← hl, parseNatList_natDigits, Option.map_some']
      congr 1
      have h1 : Int.ofNat i.natAbs = i := Int.natAbs_of_nonneg (le_of_not_lt hneg)
      exact h1

theorem hyphen_not_mem_natDigits (n : Nat) : '-' ∉ natDigits n := by
  intro hm
  exact digitVal_ne_none_of_mem_natDigits n '-' hm rfl

theorem not_mem_intToChars_of_not_digit (i : Int) (c : Char) (hdig : digitVal c = none)
    (hneg : c ≠ '-') : c ∉ intToChars i := by
  intro hm
  unfold intToChars at hm
  have hnd : c ∉ natDigits i.natAbs := fun h =>
    digitVal_ne_none_of_mem_natDigits i.natAbs c h hdig
  by_cases hi : i < 0
  · rw [if_pos hi] at hm
    rcases List.mem_cons.mp hm with h1 | h2
    · exact hneg h1
    · exact hnd h2
  · rw [if_neg hi] at hm
    exact hnd hm

/-- Split a character list at the first occurrence of `sep`. -/
def splitFirst (sep : Char) : List Char → Option (List Char × List Char)
  | [] => none
  | c :: cs =>
    if c = sep then some ([], cs)
    else (splitFirst sep cs).map (fun p => (c :: p.1, p.2))

theorem splitFirst_append (sep : Char) (l₁ l₂ : List Char) (h : sep ∉ l₁) :
    splitFirst sep (l₁ ++ sep :: l₂) = some (l₁, l₂) := by
  induction l₁ with
  | nil => simp [splitFirst]
  | cons c cs ih =>
    have hc : c ≠ sep := fun hceq => h (hceq ▸ List.mem_cons_self _ _)
    have hcs : sep ∉ cs := fun hmem => h (List.mem_cons_of_mem _ hmem)
    simp only [List.cons_append, splitFirst, if_neg hc, List.append_eq, ih hcs,
      Option.map_some']

/-- Embedding of `"%d<sep>%d"` rendering of an integer pair. -/
def pairToChars (sep : Char) (a b : Int) : List Char :=
  intToChars a ++ sep :: intToChars b

/-- Parse a `sep`-separated integer pair. -/
def parsePair (sep : Char) (cs : List Char) : Option (Int × Int) :=
  match splitFirst sep cs with
  | some (l, r) =>
    match parseIntList l, parseIntList r with
    | some a, some b => some (a, b)
    | _, _ => none
  | none => none

theorem parsePair_pairToChars (sep : Char) (a b : Int) (hdig : digitVal sep = none)
    (hneg : sep ≠ '-') :
    parsePair sep (pairToChars sep a b) = some (a, b) := by
  have hsplit : splitFirst sep (pairToChars sep a b) = some (intToChars a, intToChars b) :=
    splitFirst_append sep _ _ (not_mem_intToChars_of_not_digit a sep hdig hneg)
  simp only [parsePair, hsplit, parseIntList_intToChars]

/-! ## RSVG logo overlay (`rsvg_logo.h` / `rsvg_logo.cpp`) -/

/-- Embedding of `common::draw::Point` — integer x/y. -/
structure Point where
  x : Int
  y : Int
  deriving DecidableEq, Repr

/-- Embedding of `common::draw::Size` — integer width/height. -/
structure Size where
  width : Int
  height : Int
  deriving DecidableEq, Repr

/-- Embedding of `common::ConvertToString(Point)`: the `"x,y"` format. -/
def pointToString (p : Point) : String :=
  ⟨pairToChars ',' p.x p.y⟩

/-- Embedding of `common::ConvertFromString` for `Point`. -/
def pointFromString (s : String) : Option Point :=
  (parsePair ',' s.data).map (fun q => ⟨q.1, q.2⟩)

/-- Embedding of `common::ConvertToString(Size)`: the `"WxH"` format. -/
def sizeToString (sz : Size) : String :=
  ⟨pairToChars 'x' sz.width sz.height⟩

/-- Embedding of `common::ConvertFromString` for `Size`. -/
def sizeFromString (s : String) : Option Size :=
  (parsePair 'x' s.data).map (fun q => ⟨q.1, q.2⟩)

theorem pointFromString_pointToString (p : Point) :
    pointFromString (pointToString p) = some p := by
  unfold pointFromString pointToString
  rw [show (String.mk (pairToChars ',' p.x p.y)).data = pairToChars ',' p.x p.y from rfl]
  rw [parsePair_pairToChars ',' p.x p.y rfl (by decide), Option.map_some']

theorem sizeFromString_sizeToString (sz : Size) :
    sizeFromString (sizeToString sz) = some sz := by
  unfold sizeFromString sizeToString
  rw [show (String.mk (pairToChars 'x' sz.width sz.height)).data =
      pairToChars 'x' sz.width sz.height from rfl]
  rw [parsePair_pairToChars 'x' sz.width sz.height rfl (by decide), Option.map_some']

/-- A `json_object` holding string-valued fields, in insertion order
(`json_object_object_add` appends, `json_object_object_get_ex` finds the
field by name). -/
abbrev Json := List (String × String)

/-- Embedding of `json_object_object_add(out, field, json_object_new_string(value))`. -/
def jsonAdd (j : Json) (field value : String) : Json :=
  j ++ [(field, value)]

/-- Embedding of `json_object_object_get_ex(serialized, field, &out)` together with
`json_object_get_string(out)`. -/
def jsonGet (j : Json) (field : String) : Option String :=
  (j.find? (fun kv => kv.1 = field)).map Prod.snd

/-- Embedding of `RSVGLogo`: the logo path URL (`path_`, modelled by its URL string),
the overlay position (`position_`), and the optional image size (`size_`). -/
structure RSVGLogo where
  path : String
  position : Point
  size : Option Size
  deriving DecidableEq, Repr

/-- Embedding of `RSVGLogo::RSVGLogo()` — empty URL, default point, unset size. -/
def RSVGLogo.default : RSVGLogo :=
  ⟨"", ⟨0, 0⟩, none⟩

/-- Embedding of `RSVGLogo::Equals` (rsvg_logo.cpp lines 37-39): `path_ == inf.path_`. -/
def RSVGLogo.Equals (a b : RSVGLogo) : Bool :=
  a.path == b.path

/-- Embedding of `RSVGLogo::SerializeFields` (lines 128-139): add the path string, add
the position string, and add the size string only when `size_` is set. -/
def RSVGLogo.SerializeFields (logo : RSVGLogo) (out : Json) : Json :=
  let out₁ := jsonAdd out "path" logo.path
  let out₂ := jsonAdd out₁ "position" (pointToString logo.position)
  match logo.size with
  | some sz => jsonAdd out₂ "size" (sizeToString sz)
  | none => out₂

/-- Embedding of `RSVGLogo::DoDeSerialize` (lines 98-126): start from a default logo;
set the path if the field exists; set the position if the field exists and
parses; set the size if the field exists and parses; the result replaces
`*this` and the function always succeeds. -/
def RSVGLogo.DoDeSerialize (serialized : Json) : RSVGLogo :=
  let res := RSVGLogo.default
  let res₁ :=
    match jsonGet serialized "path" with
    | some s => { res with path := s }
    | none => res
  let res₂ :=
    match jsonGet serialized "position" with
    | some s =>
      match pointFromString s with
      | some pt => { res₁ with position := pt }
      | none => res₁
    | none => res₁
  match jsonGet serialized "size" with
  | some s =>
    match sizeFromString s with
    | some sz => { res₂ with size := some sz }
    | none => res₂
  | none => res₂

/-- Claim C8: `RSVGLogo::Equals` compares only the path field: two logos are
reported equal exactly when their paths agree, so logos that differ only
in position or size are reported equal. -/
theorem claim_C8_equals_compares_only_path (a b : RSVGLogo) :
    (RSVGLogo.Equals a b = true ↔ a.path = b.path) ∧
    (a.path = b.path → RSVGLogo.Equals a b = true) := by
  constructor
  · unfold RSVGLogo.Equals
    exact beq_iff_eq
  · intro h
    unfold RSVGLogo.Equals
    exact beq_iff_eq.mpr h

/-- Claim C9: RSVGLogo serialization round-trips: deserializing the output of
`SerializeFields` restores the path, the position, and the size when one
was set; the size field is omitted from the serialized form exactly when
the size is unset (and is then left unset by deserialization). -/
theorem claim_C9_logo_serialization_roundtrip (logo : RSVGLogo) :
    RSVGLogo.DoDeSerialize (logo.SerializeFields []) = logo ∧
    jsonGet (logo.SerializeFields []) "size" = logo.size.map sizeToString := by
  obtain ⟨path, pos, size⟩ := logo
  cases size with
  | none =>
    constructor
    · simp [RSVGLogo.SerializeFields, RSVGLogo.DoDeSerialize, RSVGLogo.default,
        jsonAdd, jsonGet, pointFromString_pointToString]
    · simp [RSVGLogo.SerializeFields, jsonAdd, jsonGet]
  | some sz =>
    constructor
    · simp [RSVGLogo.SerializeFields, RSVGLogo.DoDeSerialize, RSVGLogo.default,
        jsonAdd, jsonGet, pointFromString_pointToString, sizeFromString_sizeToString]
    · simp [RSVGLogo.SerializeFields, jsonAdd, jsonGet]

/-! ## Age-based pruning (`utils.cpp`, `RemoveOldFilesByTime`) -/

/-- One directory entry as `readdir` reports it: a regular file with its
last-modification time (`none` when `get_file_time_last_modification`
fails), or a subdirectory with its own listing. The `.` and `..` entries
the loop skips are not part of the listing. -/
inductive FsEntry
  | file (name : String) (mtime : Option Int)
  | dir (name : String) (children : List FsEntry)

/-- The directory-walk loop of `RemoveOldFilesByTime` (utils.cpp lines
127-168), returning the listing left on disk: a regular file is removed
when its name matches the pattern, its modification time is available, and
that time is strictly below `max_life_secs` (a stat failure only warns); a
subdirectory is never removed and is recursed into only when `recursive`
is set. -/
def removeOldList (maxLife : Int) (matchP : String → Bool) (recursive : Bool) :
    List FsEntry → List FsEntry
  | [] => []
  | FsEntry.file name mt :: rest =>
    if matchP name then
      match mt with
      | none => FsEntry.file name none :: removeOldList maxLife matchP recursive rest
      | some t =>
        if t < maxLife then removeOldList maxLife matchP recursive rest
        else FsEntry.file name (some t) :: removeOldList maxLife matchP recursive rest
    else FsEntry.file name mt :: removeOldList maxLife matchP recursive rest
  | FsEntry.dir name children :: rest =>
    FsEntry.dir name (if recursive then removeOldList maxLife matchP recursive children
        else children) :: removeOldList maxLife matchP recursive rest

/-- Embedding of `RemoveOldFilesByTime` (utils.cpp lines 112-171): when the directory
path is invalid or `opendir` fails (`none`), return with no action;
otherwise run the walk. -/
def RemoveOldFilesByTime (dir : Option (List FsEntry)) (maxLife : Int)
    (matchP : String → Bool) (recursive : Bool) : Option (List FsEntry) :=
  match dir with
  | none => none
  | some entries => some (removeOldList maxLife matchP recursive entries)

/-- All directory paths of a listing, each relative to the prefix `p`. -/
def dirPaths (p : List String) : List FsEntry → List (List String)
  | [] => []
  | FsEntry.file _ _ :: rest => dirPaths p rest
  | FsEntry.dir name children :: rest =>
    (p ++ [name]) :: (dirPaths (p ++ [name]) children ++ dirPaths p rest)

/-- All regular files of a listing: containing directory path, file name,
and modification time. -/
def filePaths (p : List String) : List FsEntry → List (List String × String × Option Int)
  | [] => []
  | FsEntry.file name mt :: rest => (p, name, mt) :: filePaths p rest
  | FsEntry.dir name children :: rest =>
    filePaths (p ++ [name]) children ++ filePaths p rest

/-- The removal condition of the claim: a regular file is eligible for
removal when its name matches the pattern and its known modification time
is strictly below `max_life_secs`. -/
def removalEligible (maxLife : Int) (matchP : String → Bool) (name : String) :
    Option Int → Bool
  | some t => matchP name && decide (t < maxLife)
  | none => false

theorem removeOldList_nil (maxLife : Int) (matchP : String → Bool) (recursive : Bool) :
    removeOldList maxLife matchP recursive [] = [] := by
  rw [removeOldList.eq_def]

theorem removeOldList_cons_file (maxLife : Int) (matchP : String → Bool) (recursive : Bool)
    (name : String) (mt : Option Int) (rest : List FsEntry) :
    removeOldList maxLife matchP recursive (FsEntry.file name mt :: rest) =
      if matchP name then
        match mt with
        | none => FsEntry.file name none :: removeOldList maxLife matchP recursive rest
        | some t =>
          if t < maxLife then removeOldList maxLife matchP recursive rest
          else FsEntry.file name (some t) :: removeOldList maxLife matchP recursive rest
      else FsEntry.file name mt :: removeOldList maxLife matchP recursive rest := by
  rw [removeOldList.eq_def]

theorem removeOldList_cons_dir (maxLife : Int) (matchP : String → Bool) (recursive : Bool)
    (name : String) (children rest : List FsEntry) :
    removeOldList maxLife matchP recursive (FsEntry.dir name children :: rest) =
      FsEntry.dir name (if recursive then removeOldList maxLife matchP recursive children
          else children) :: removeOldList maxLife matchP recursive rest := by
  rw [removeOldList.eq_def]

theorem dirPaths_removeOldList (maxLife : Int) (matchP : String → Bool) (recursive : Bool)
    (es : List FsEntry) :
    ∀ p, dirPaths p (removeOldList maxLife matchP recursive es) = dirPaths p es := by
  induction es using removeOldList.induct maxLife matchP recursive with
  | case1 => intro p; rw [removeOldList_nil]
  | case2 name rest hm ih =>
    intro p
    rw [removeOldList_cons_file, if_pos hm]
    simp only [dirPaths, ih p]
  | case3 name rest hm t ht ih =>
    intro p
    rw [removeOldList_cons_file, if_pos hm]
    simp only [if_pos ht, dirPaths, ih p]
  | case4 name rest hm t ht ih =>
    intro p
    rw [removeOldList_cons_file, if_pos hm]
    simp only [if_neg ht, dirPaths, ih p]
  | case5 name mt rest hm ih =>
    intro p
    rw [removeOldList_cons_file, if_neg hm]
    simp only [dirPaths, ih p]
  | case6 name children rest ihc ih =>
    intro p
    rw [removeOldList_cons_dir]
    cases recursive with
    | false => simp only [Bool.false_eq_true, if_false, dirPaths, ih p]
    | true => simp only [if_true, dirPaths, ihc (p ++ [name]), ih p]

theorem mem_filePaths_removeOldList (maxLife : Int) (matchP : String → Bool)
    (recursive : Bool) (es : List FsEntry) :
    ∀ p q name mt, (q, name, mt) ∈ filePaths p es →
      removalEligible maxLife matchP name mt = false →
      (q, name, mt) ∈ filePaths p (removeOldList maxLife matchP recursive es) := by
  induction es using removeOldList.induct maxLife matchP recursive with
  | case1 =>
    intro p q name mt hmem _
    rw [removeOldList_nil]
    exact hmem
  | case2 name rest hm ih =>
    intro p q nm mt hmem hel
    simp only [filePaths] at hmem
    rw [removeOldList_cons_file, if_pos hm]
    simp only [filePaths]
    rcases List.mem_cons.mp hmem with h1 | h2
    · exact List.mem_cons.mpr (Or.inl h1)
    · exact List.mem_cons.mpr (Or.inr (ih p q nm mt h2 hel))
  | case3 name rest hm t ht ih =>
    intro p q nm mt hmem hel
    simp only [filePaths] at hmem
    rw [removeOldList_cons_file, if_pos hm]
    simp only [if_pos ht]
    rcases List.mem_cons.mp hmem with h1 | h2
    · exfalso
      have h1' : q = p ∧ nm = name ∧ mt = some t := by
        simpa [Prod.ext_iff] using h1
      rw [h1'.2.1, h1'.2.2] at hel
      simp [removalEligible, hm, ht] at hel
    · exact ih p q nm mt h2 hel
  | case4 name rest hm t ht ih =>
    intro p q nm mt hmem hel
    simp only [filePaths] at hmem
    rw [removeOldList_cons_file, if_pos hm]
    simp only [if_neg ht, filePaths]
    rcases List.mem_cons.mp hmem with h1 | h2
    · exact List.mem_cons.mpr (Or.inl h1)
    · exact List.mem_cons.mpr (Or.inr (ih p q nm mt h2 hel))
  | case5 name mt rest hm ih =>
    intro p q nm mt' hmem hel
    simp only [filePaths] at hmem
    rw [removeOldList_cons_file, if_neg hm]
    simp only [filePaths]
    rcases List.mem_cons.mp hmem with h1 | h2
    · exact List.mem_cons.mpr (Or.inl h1)
    · exact List.mem_cons.mpr (Or.inr (ih p q nm mt' h2 hel))
  | case6 name children rest ihc ih =>
    intro p q nm mt hmem hel
    simp only [filePaths] at hmem
    rw [removeOldList_cons_dir]
    simp only [filePaths]
    rcases List.mem_append.mp hmem with h1 | h2
    · apply List.mem_append.mpr
      left
      cases recursive with
      | false => simpa using h1
      | true => simpa using ihc (p ++ [name]) q nm mt h1 hel
    · exact List.mem_append.mpr (Or.inr (ih p q nm mt h2 hel))

theorem dir_mem_removeOldList_not_recursive (maxLife : Int) (matchP : String → Bool)
    (es : List FsEntry) (dname : String) (dch : List FsEntry)
    (h : FsEntry.dir dname dch ∈ es) :
    FsEntry.dir dname dch ∈ removeOldList maxLife matchP false es := by
  induction es using removeOldList.induct maxLife matchP false with
  | case1 => exact absurd h (List.not_mem_nil _)
  | case2 name rest hm ih =>
    rw [removeOldList_cons_file, if_pos hm]
    rcases List.mem_cons.mp h with h1 | h2
    · exact absurd h1 (by simp)
    · exact List.mem_cons_of_mem _ (ih h2)
  | case3 name rest hm t ht ih =>
    rw [removeOldList_cons_file, if_pos hm]
    simp only [if_pos ht]
    rcases List.mem_cons.mp h with h1 | h2
    · exact absurd h1 (by simp)
    · exact ih h2
  | case4 name rest hm t ht ih =>
    rw [removeOldList_cons_file, if_pos hm]
    simp only [if_neg ht]
    rcases List.mem_cons.mp h with h1 | h2
    · exact absurd h1 (by simp)
    · exact List.mem_cons_of_mem _ (ih h2)
  | case5 name mt rest hm ih =>
    rw [removeOldList_cons_file, if_neg hm]
    rcases List.mem_cons.mp h with h1 | h2
    · exact absurd h1 (by simp)
    · exact List.mem_cons_of_mem _ (ih h2)
  | case6 name children rest ihc ih =>
    rw [removeOldList_cons_dir]
    simp only [Bool.false_eq_true, if_false]
    rcases List.mem_cons.mp h with h1 | h2
    · exact h1 ▸ List.mem_cons_self _ _
    · exact List.mem_cons_of_mem _ (ih h2)

/-- Claim C10: `RemoveOldFilesByTime` removes only regular files whose name
matches the pattern and whose modification time is strictly below
`max_life_secs`: every directory survives (directories are only recursed
into, and only when `recursive` is set — with `recursive` unset a
subdirectory keeps its entire listing), every file that is not eligible
for removal survives, and an invalid or unopenable directory triggers no
action at all. -/
theorem claim_C10_remove_old_files_by_time (es : List FsEntry) (maxLife : Int)
    (matchP : String → Bool) (recursive : Bool) :
    RemoveOldFilesByTime none maxLife matchP recursive = none ∧
    RemoveOldFilesByTime (some es) maxLife matchP recursive =
      some (removeOldList maxLife matchP recursive es) ∧
    dirPaths [] (removeOldList maxLife matchP recursive es) = dirPaths [] es ∧
    (∀ q name mt, (q, name, mt) ∈ filePaths [] es →
      removalEligible maxLife matchP name mt = false →
      (q, name, mt) ∈ filePaths [] (removeOldList maxLife matchP recursive es)) ∧
    (∀ dname dch, FsEntry.dir dname dch ∈ es →
      FsEntry.dir dname dch ∈ removeOldList maxLife matchP false es) := by
  refine ⟨rfl, rfl, dirPaths_removeOldList maxLife matchP recursive es [], ?_, ?_⟩
  · intro q name mt hmem hel
    exact mem_filePaths_removeOldList maxLife matchP recursive es [] q name mt hmem hel
  · intro dname dch hmem
    exact dir_mem_removeOldList_not_recursive maxLife matchP es dname dch hmem

/-- Witness for claim C10: on a listing with an old matching file, a fresh
matching file and a subdirectory, with the walk non-recursive: the invalid
directory is untouched, directory paths survive, the non-eligible file
survives, and the subdirectory keeps its listing. -/
theorem claim_C10_remove_old_files_by_time_witness :
    RemoveOldFilesByTime none 50 (fun s => s == "old.ts" || s == "x.ts") false = none ∧
    dirPaths [] (removeOldList 50 (fun s => s == "old.ts" || s == "x.ts") false
        [FsEntry.file "old.ts" (some 1), FsEntry.file "new.ts" (some 99),
         FsEntry.dir "sub" [FsEntry.file "x.ts" (some 1)]]) =
      dirPaths [] [FsEntry.file "old.ts" (some 1), FsEntry.file "new.ts" (some 99),
         FsEntry.dir "sub" [FsEntry.file "x.ts" (some 1)]] ∧
    ([], "new.ts", some (99 : Int)) ∈ filePaths []
      (removeOldList 50 (fun s => s == "old.ts" || s == "x.ts") false
        [FsEntry.file "old.ts" (some 1), FsEntry.file "new.ts" (some 99),
         FsEntry.dir "sub" [FsEntry.file "x.ts" (some 1)]]) ∧
    FsEntry.dir "sub" [FsEntry.file "x.ts" (some 1)] ∈
      removeOldList 50 (fun s => s == "old.ts" || s == "x.ts") false
        [FsEntry.file "old.ts" (some 1), FsEntry.file "new.ts" (some 99),
         FsEntry.dir "sub" [FsEntry.file "x.ts" (some 1)]] := by
  have h := claim_C10_remove_old_files_by_time
    [FsEntry.file "old.ts" (some 1), FsEntry.file "new.ts" (some 99),
     FsEntry.dir "sub" [FsEntry.file "x.ts" (some 1)]]
    50 (fun s => s == "old.ts" || s == "x.ts") false
  refine ⟨h.1, h.2.2.1, ?_, ?_⟩
  · exact h.2.2.2.1 [] "new.ts" (some 99) (by simp [filePaths]) (by decide)
  · exact h.2.2.2.2 "sub" [FsEntry.file "x.ts" (some 1)] (by simp)

end Fastocloud
